import Mathlib

/-!
Shallow embedding of `pyart/util/circular_stats.py` (circular / directional
statistics) and theorems checking the module's specification against it.

Modelling conventions:
* NumPy float arithmetic is idealised as exact arithmetic: the trigonometric
  functions work over `ℝ`, and the masked-field helper
  `compute_directional_stats` (which only adds, divides and compares) is
  embedded over `ℚ` so that it stays executable.
* `np.arctan2 y x` is the argument of the complex number `x + y*I`
  (range `(-π, π]`).
* `np.log 0 = -inf` and `np.sqrt inf = inf`, so the standard-deviation
  functions, which compute `sqrt (-2 * log norm)`, are embedded into `EReal`.
* A masked array slice is a `List (Option ℚ)`; `none` is a masked element.
* NumPy raises `IndexError` when a boolean index array's length differs from
  the indexed axis; this is modelled by an `Option` result (`none` = raise).
-/

namespace CircularStats

open Real

/-- Arithmetic mean as computed by `np.mean`: sum of the elements divided by
their number. -/
noncomputable def mean (l : List ℝ) : ℝ := l.sum / l.length

/-- Two-argument arctangent `np.arctan2 y x`: the argument of the complex
number with real part `x` and imaginary part `y`, in the interval `(-π, π]`. -/
noncomputable def arctan2 (y x : ℝ) : ℝ := Complex.arg ⟨x, y⟩

/-- Resultant (mean unit) vector of a list of angles, as a complex number:
real part the mean of the cosines, imaginary part the mean of the sines. -/
noncomputable def resultantVec (angles : List ℝ) : ℂ :=
  ⟨mean (angles.map Real.cos), mean (angles.map Real.sin)⟩

/-- Degree-to-radian conversion `np.deg2rad`. -/
noncomputable def deg2rad (x : ℝ) : ℝ := x * (π / 180)

/-- Radian-to-degree conversion `np.rad2deg`. -/
noncomputable def rad2deg (x : ℝ) : ℝ := x * (180 / π)

/-- Logarithm as computed by `np.log` on nonnegative inputs: `np.log 0` is
`-inf`, embedded as `⊥ : EReal`.  (Negative inputs, which NumPy maps to NaN,
never occur in this module: the only argument is a `Real.sqrt`.) -/
noncomputable def npLog (x : ℝ) : EReal :=
  if x = 0 then ⊥ else ((Real.log x : ℝ) : EReal)

/-- Square root as computed by `np.sqrt`, extended to `EReal`:
`np.sqrt inf = inf`.  (The `⊥` branch, NaN in NumPy, never occurs in this
module: the argument `-2 * log norm` is never `-inf`.) -/
noncomputable def npSqrt (x : EReal) : EReal :=
  if x = ⊤ then ⊤ else if x = ⊥ then ⊥ else ((Real.sqrt x.toReal : ℝ) : EReal)

/-- Function `angular_mean(angles)` of the source: the two-argument
arctangent of the mean of the sines and the mean of the cosines. -/
noncomputable def angular_mean (angles : List ℝ) : ℝ :=
  arctan2 (mean (angles.map Real.sin)) (mean (angles.map Real.cos))

/-- Length of the resultant vector, `norm = sqrt(mean(cos)^2 + mean(sin)^2)`,
as computed inside `angular_std`. -/
noncomputable def resultantNorm (angles : List ℝ) : ℝ :=
  Real.sqrt ((mean (angles.map Real.cos)) ^ 2 + (mean (angles.map Real.sin)) ^ 2)

/-- Function `angular_std(angles)` of the source:
`np.sqrt(-2 * np.log(norm))` with `norm` the resultant vector length. -/
noncomputable def angular_std (angles : List ℝ) : EReal :=
  npSqrt (((-2 : ℝ) : EReal) * npLog (resultantNorm angles))

/-- Function `angular_mean_deg(angles)` of the source:
`np.rad2deg(angular_mean(np.deg2rad(angles)))`. -/
noncomputable def angular_mean_deg (angles : List ℝ) : ℝ :=
  rad2deg (angular_mean (angles.map deg2rad))

/-- Radian-to-degree conversion applied to an extended real
(`np.rad2deg` maps `inf` to `inf`; multiplication by the positive constant
`180/π` does exactly this on `EReal`). -/
noncomputable def rad2degE (x : EReal) : EReal := x * ((180 / π : ℝ) : EReal)

/-- Function `angular_std_deg(angles)` of the source:
`np.rad2deg(angular_std(np.deg2rad(angles)))`. -/
noncomputable def angular_std_deg (angles : List ℝ) : EReal :=
  rad2degE (angular_std (angles.map deg2rad))

/-- Function `mean_of_two_angles(angles1, angles2)` of the source, per
element: `arctan2((sin a1 + sin a2)/2, (cos a1 + cos a2)/2)`. -/
noncomputable def mean_of_two_angles (angles1 angles2 : ℝ) : ℝ :=
  arctan2 ((Real.sin angles1 + Real.sin angles2) / 2)
    ((Real.cos angles1 + Real.cos angles2) / 2)

/-- Function `mean_of_two_angles` applied elementwise to two equally shaped
1-D arrays (NumPy broadcasting of two equal shapes is elementwise
application). -/
noncomputable def mean_of_two_angles_arr (angles1 angles2 : List ℝ) : List ℝ :=
  List.zipWith mean_of_two_angles angles1 angles2

/-- Function `mean_of_two_angles_deg(angle1, angle2)` of the source:
`np.rad2deg(mean_of_two_angles(np.deg2rad(angle1), np.deg2rad(angle2)))`. -/
noncomputable def mean_of_two_angles_deg (angle1 angle2 : ℝ) : ℝ :=
  rad2deg (mean_of_two_angles (deg2rad angle1) (deg2rad angle2))

/-- Function `interval_mean(dist, interval_min, interval_max)` of the source:
remap the interval affinely onto `[-π, π]`, take the angular mean, map back. -/
noncomputable def interval_mean (dist : List ℝ) (interval_min interval_max : ℝ) : ℝ :=
  let half_width := (interval_max - interval_min) / 2
  let center := interval_min + half_width
  let a := dist.map fun x => (x - center) / half_width * π
  angular_mean a * half_width / π + center

/-- Function `interval_std(dist, interval_min, interval_max)` of the source:
remap the interval affinely onto `[-π, π]`, take the angular standard
deviation, scale back by `half_width / π`. -/
noncomputable def interval_std (dist : List ℝ) (interval_min interval_max : ℝ) : EReal :=
  let half_width := (interval_max - interval_min) / 2
  let center := interval_min + half_width
  let a := dist.map fun x => (x - center) / half_width * π
  angular_std a * ((half_width : ℝ) : EReal) / ((π : ℝ) : EReal)

/-! ### The masked-field helper `compute_directional_stats`

Embedded over `ℚ` (exact arithmetic, executable).  A 2-D masked field is a
list of rows; a masked element is `none`. -/

/-- A 2-D masked field: rows of optional rationals, `none` = masked. -/
abbrev MaskedField := List (List (Option ℚ))

/-- Number of columns of a field (length of its first row; NumPy arrays are
rectangular, so every row has this length). -/
def numCols (field : MaskedField) : ℕ := (field.headD []).length

/-- Column `j` of the field: entry `j` of each row. -/
def colOf (field : MaskedField) (j : ℕ) : List (Option ℚ) :=
  field.map fun r => r.getD j none

/-- All columns of the field, in order. -/
def colsOf (field : MaskedField) : List (List (Option ℚ)) :=
  (List.range (numCols field)).map (colOf field)

/-- Number of unmasked elements of a masked slice (`np.sum` of the validity
mask along one axis, at one output position). -/
def countValid (l : List (Option ℚ)) : ℕ := (l.filterMap id).length

/-- Masked mean of a slice (`np.ma.mean`): mean of the unmasked entries;
a fully masked slice yields a masked result. -/
def maMean (l : List (Option ℚ)) : Option ℚ :=
  let v := l.filterMap id
  if v.length = 0 then none else some (v.sum / (v.length : ℚ))

/-- Median of a list of numbers (`np.median`): middle element of the sorted
list for odd length, mean of the two middle elements for even length. -/
def medianOf (v : List ℚ) : ℚ :=
  let s := List.insertionSort (· ≤ ·) v
  if v.length % 2 = 1 then s.getD (v.length / 2) 0
  else (s.getD (v.length / 2 - 1) 0 + s.getD (v.length / 2) 0) / 2

/-- Masked median of a slice (`np.ma.median`): median of the unmasked
entries; a fully masked slice yields a masked result. -/
def maMedian (l : List (Option ℚ)) : Option ℚ :=
  let v := l.filterMap id
  if v.length = 0 then none else some (medianOf v)

/-- Masked reduction of a 2-D field along an axis (`np.ma.mean(field, axis)` /
`np.ma.median(field, axis)`): axis `0` reduces every column, axis `1` every
row. -/
def maReduce (op : List (Option ℚ) → Option ℚ) (field : MaskedField) (axis : ℕ) :
    List (Option ℚ) :=
  if axis = 0 then (colsOf field).map op else field.map op

/-- Function `compute_directional_stats(field, avg_type, nvalid_min, axis)` of
the source.  `values` is the masked mean (if `avg_type == 'mean'`) or median
(any other `avg_type`) along `axis`; `nvalid` is `np.sum(valid, axis=0)` — the
source hardcodes axis `0` here; then `values[nvalid < nvalid_min]` is masked.
The boolean-mask assignment raises `IndexError` when the lengths of `nvalid`
and `values` differ, modelled by the result `none`. -/
def compute_directional_stats (field : MaskedField) (avg_type : String)
    (nvalid_min : ℕ) (axis : ℕ) : Option (List (Option ℚ) × List ℕ) :=
  let values := if avg_type = "mean" then maReduce maMean field axis
    else maReduce maMedian field axis
  let nvalid := (colsOf field).map countValid
  if nvalid.length = values.length then
    some (values.zipWith (fun v n => if n < nvalid_min then none else v) nvalid, nvalid)
  else none

/-! ### Explicit-state version of `compute_directional_stats`

To check that the function never writes to its argument, each statement of
the body is modelled as a function on an environment holding the caller's
`field` together with the local variables; every assignment writes exactly
the component that the corresponding NumPy operation targets (`np.ma.mean`,
`np.ma.median` and `np.sum` allocate fresh arrays; the masking assignment
`values[...] = np.ma.masked` writes into the local `values` array only). -/

/-- Environment of one call to `compute_directional_stats`: the caller's
array and the two locals (`values` is `none` before its first assignment). -/
structure DirStatsEnv where
  field : MaskedField
  values : Option (List (Option ℚ))
  nvalid : List ℕ

/-- Statement `values = np.ma.mean(field, axis)` / `np.ma.median(...)`:
reads `field`, writes the freshly allocated result into `values`. -/
def dsStep1 (avg_type : String) (axis : ℕ) (e : DirStatsEnv) : DirStatsEnv :=
  { e with values := some (if avg_type = "mean" then maReduce maMean e.field axis
      else maReduce maMedian e.field axis) }

/-- Statement `nvalid = np.sum(np.logical_not(getmaskarray(field)), axis=0)`:
reads `field`, writes the fresh count array into `nvalid`. -/
def dsStep2 (e : DirStatsEnv) : DirStatsEnv :=
  { e with nvalid := (colsOf e.field).map countValid }

/-- Statement `values[nvalid < nvalid_min] = np.ma.masked`: reads `nvalid`,
writes into the local `values` only (`none` on a length mismatch, where NumPy
raises `IndexError`). -/
def dsStep3 (nvalid_min : ℕ) (e : DirStatsEnv) : DirStatsEnv :=
  { e with values := e.values.bind fun vs =>
      if e.nvalid.length = vs.length then
        some (vs.zipWith (fun v n => if n < nvalid_min then none else v) e.nvalid)
      else none }

/-- The whole body of `compute_directional_stats`, run statement by statement
on the environment. -/
def dsRun (field : MaskedField) (avg_type : String) (nvalid_min axis : ℕ) :
    DirStatsEnv :=
  dsStep3 nvalid_min (dsStep2 (dsStep1 avg_type axis
    { field := field, values := none, nvalid := [] }))

/-! ### Helper lemmas -/

/-- Setting a list position to the value it already holds is the identity. -/
theorem set_get_self {α : Type} : ∀ (l : List α) (i : ℕ) (h : i < l.length),
    l.set i (l.get ⟨i, h⟩) = l
  | _ :: _, 0, _ => rfl
  | x :: xs, i + 1, h => by
    simp only [List.set_cons_succ, List.cons.injEq, true_and]
    exact set_get_self xs i (by simpa using h)

/-- Mapping after setting a position to a value with the same image leaves the
mapped list unchanged. -/
theorem map_set_self_of_eq {α β : Type} (f : α → β) (l : List α) (i : ℕ)
    (h : i < l.length) (v : α) (hv : f v = f (l.get ⟨i, h⟩)) :
    (l.set i v).map f = l.map f := by
  rw [List.map_set, hv]
  have h' : i < (l.map f).length := by simpa using h
  have hg : f (l.get ⟨i, h⟩) = (l.map f).get ⟨i, h'⟩ := by simp
  rw [hg, set_get_self]

/-- Mean of a constant list. -/
theorem mean_replicate {n : ℕ} (hn : 0 < n) (c : ℝ) :
    mean (List.replicate n c) = c := by
  unfold mean
  rw [List.sum_replicate, List.length_replicate, nsmul_eq_mul]
  exact mul_div_cancel_left₀ c (Nat.cast_ne_zero.mpr hn.ne')

/-- Mean of a one-element list. -/
theorem mean_single (x : ℝ) : mean [x] = x := by
  unfold mean; simp

/-- Mean of a two-element list. -/
theorem mean_pair (x y : ℝ) : mean [x, y] = (x + y) / 2 := by
  unfold mean
  simp

/-- Negating every element negates the mean. -/
theorem mean_map_neg (l : List ℝ) (g : ℝ → ℝ) :
    mean (l.map fun x => -(g x)) = -(mean (l.map g)) := by
  unfold mean
  rw [show (l.map fun x => -(g x)) = (l.map g).map fun y => -y by
    rw [List.map_map]; rfl]
  rw [show ((l.map g).map fun y => -y).sum = -((l.map g).sum) from
    ((l.map g).sum_neg).symm]
  rw [List.length_map, List.length_map, neg_div]

/-- Angular mean of a one-element list. -/
theorem angular_mean_single (x : ℝ) :
    angular_mean [x] = arctan2 (Real.sin x) (Real.cos x) := by
  unfold angular_mean
  rw [List.map_cons, List.map_nil, List.map_cons, List.map_nil, mean_single, mean_single]

/-- Angular mean of a two-element list. -/
theorem angular_mean_pair (x y : ℝ) :
    angular_mean [x, y]
      = arctan2 ((Real.sin x + Real.sin y) / 2) ((Real.cos x + Real.cos y) / 2) := by
  unfold angular_mean
  rw [List.map_cons, List.map_cons, List.map_nil, List.map_cons, List.map_cons,
    List.map_nil, mean_pair, mean_pair]

/-- The angular mean is the argument of the resultant vector. -/
theorem angular_mean_eq_arg (l : List ℝ) :
    angular_mean l = Complex.arg (resultantVec l) := rfl

/-- Value of `arctan2 0 x` for negative `x`. -/
theorem arctan2_zero_neg {c : ℝ} (h : c < 0) : arctan2 0 c = π := by
  unfold arctan2
  rw [show (⟨c, 0⟩ : ℂ) = (c : ℂ) from by apply Complex.ext <;> simp]
  exact Complex.arg_ofReal_of_neg h

/-- Value of `arctan2 0 x` for nonnegative `x`. -/
theorem arctan2_zero_nonneg {c : ℝ} (h : 0 ≤ c) : arctan2 0 c = 0 := by
  unfold arctan2
  rw [show (⟨c, 0⟩ : ℂ) = (c : ℂ) from by apply Complex.ext <;> simp]
  exact Complex.arg_ofReal_of_nonneg h

/-- Value of `arctan2 1 0`. -/
theorem arctan2_one_zero : arctan2 1 0 = π / 2 := by
  unfold arctan2
  rw [show (⟨0, 1⟩ : ℂ) = Complex.I from by apply Complex.ext <;> simp]
  exact Complex.arg_I

/-- Value of `arctan2 (-1) 0`. -/
theorem arctan2_negone_zero : arctan2 (-1) 0 = -(π / 2) := by
  unfold arctan2
  rw [show (⟨0, -1⟩ : ℂ) = -Complex.I from by apply Complex.ext <;> simp]
  exact Complex.arg_neg_I

/-- Unfolding lemma for `interval_mean`. -/
theorem interval_mean_def (d : List ℝ) (mn mx : ℝ) :
    interval_mean d mn mx
      = angular_mean (d.map fun x => (x - (mn + (mx - mn) / 2)) / ((mx - mn) / 2) * π)
          * ((mx - mn) / 2) / π + (mn + (mx - mn) / 2) := rfl

/-- Unfolding lemma for `interval_std`. -/
theorem interval_std_def (d : List ℝ) (mn mx : ℝ) :
    interval_std d mn mx
      = angular_std (d.map fun x => (x - (mn + (mx - mn) / 2)) / ((mx - mn) / 2) * π)
          * (((mx - mn) / 2 : ℝ) : EReal) / ((π : ℝ) : EReal) := rfl

/-- Shifting every angle by `-π` negates the resultant vector. -/
theorem resultantVec_sub_pi (l : List ℝ) :
    resultantVec (l.map fun t => t - π) = -(resultantVec l) := by
  unfold resultantVec
  have hc : ((l.map fun t => t - π).map Real.cos) = l.map fun t => -(Real.cos t) := by
    rw [List.map_map]
    exact List.map_congr_left fun x _ => Real.cos_sub_pi x
  have hs : ((l.map fun t => t - π).map Real.sin) = l.map fun t => -(Real.sin t) := by
    rw [List.map_map]
    exact List.map_congr_left fun x _ => Real.sin_sub_pi x
  rw [hc, hs, mean_map_neg, mean_map_neg]
  apply Complex.ext <;> simp

/-- Shifting every angle by `-π` preserves the resultant vector length. -/
theorem resultantNorm_sub_pi (l : List ℝ) :
    resultantNorm (l.map fun t => t - π) = resultantNorm l := by
  unfold resultantNorm
  have hc : ((l.map fun t => t - π).map Real.cos) = l.map fun t => -(Real.cos t) := by
    rw [List.map_map]
    exact List.map_congr_left fun x _ => Real.cos_sub_pi x
  have hs : ((l.map fun t => t - π).map Real.sin) = l.map fun t => -(Real.sin t) := by
    rw [List.map_map]
    exact List.map_congr_left fun x _ => Real.sin_sub_pi x
  rw [hc, hs, mean_map_neg, mean_map_neg, neg_sq, neg_sq]

/-- The affine remapping of `[0, 360]` onto `[-π, π]` used by the interval
functions is degree-to-radian conversion followed by a shift by `-π`. -/
theorem map_deg360 (d : List ℝ) :
    (d.map fun x => (x - (0 + (360 - 0) / 2)) / ((360 - 0) / 2) * π)
      = (d.map deg2rad).map fun t => t - π := by
  rw [List.map_map]
  refine List.map_congr_left fun x _ => ?_
  show (x - (0 + (360 - 0) / 2)) / ((360 - 0) / 2) * π = x * (π / 180) - π
  ring

end CircularStats

namespace CircularStats

open Real

/-! ### Claim theorems -/

/-- C7: the degree variant `angular_mean_deg` is exactly the composition
convert-to-radians, radian `angular_mean`, convert-back-to-degrees. -/
theorem claim_C7 : ∀ x : List ℝ,
    angular_mean_deg x = rad2deg (angular_mean (x.map deg2rad)) :=
  fun _ => rfl

/-- C10: `compute_directional_stats` never rejects an unrecognized
`avg_type`: every string other than exactly `"mean"` (misspellings such as
`"Mean"` or `"average"` included) silently computes the median. -/
theorem claim_C10 : ∀ (field : MaskedField) (avg_type : String)
    (nvalid_min axis : ℕ), avg_type ≠ "mean" →
    compute_directional_stats field avg_type nvalid_min axis
      = compute_directional_stats field "median" nvalid_min axis := by
  intro f a n ax h
  unfold compute_directional_stats
  rw [if_neg h, if_neg (by decide : ¬("median" = "mean"))]

/-- Witness for C10 at the misspelled average type `"Mean"`. -/
theorem claim_C10_witness :
    compute_directional_stats [[some 1, some 2, some 3], [some 3, some 2, some 1]]
        "Mean" 1 0
      = compute_directional_stats [[some 1, some 2, some 3], [some 3, some 2, some 1]]
        "median" 1 0 :=
  claim_C10 _ "Mean" 1 0 (by decide)

/-- C1 (failing input): on the unmasked 2-by-3 field `[[1,2,3],[4,5,6]]` with
`axis=1` and `nvalid_min=1`, the source computes `nvalid` along axis 0
(hardcoded), so `nvalid` has 3 entries while `values` has 2, and the
boolean-mask assignment raises `IndexError` instead of returning the
per-row statistics the claim (and the docstring) describe. -/
theorem claim_C1 :
    compute_directional_stats
      [[some 1, some 2, some 3], [some 4, some 5, some 6]] "mean" 1 1 = none := by
  decide

/-- C9: run statement by statement on an explicit environment, the body of
`compute_directional_stats` never writes to the caller's `field` (the masking
of under-populated positions targets only the local `values` array), and the
environment run agrees with the direct embedding. -/
theorem claim_C9 : ∀ (field : MaskedField) (avg_type : String)
    (nvalid_min axis : ℕ),
    (dsRun field avg_type nvalid_min axis).field = field
  ∧ (dsRun field avg_type nvalid_min axis).values
      = (compute_directional_stats field avg_type nvalid_min axis).map Prod.fst
  ∧ (dsRun field avg_type nvalid_min axis).nvalid = (colsOf field).map countValid := by
  intro f a n ax
  refine ⟨rfl, ?_, rfl⟩
  by_cases h : ((colsOf f).map countValid).length
      = (if a = "mean" then maReduce maMean f ax else maReduce maMedian f ax).length
  · simp [dsRun, dsStep1, dsStep2, dsStep3, compute_directional_stats, h]
  · simp [dsRun, dsStep1, dsStep2, dsStep3, compute_directional_stats, h]

/-- C4: `angular_std` is `sqrt (-2 * log norm)` for the resultant vector
length `norm`; a constant distribution (where `norm = 1`) has standard
deviation `0`, and a fully dispersed distribution (`norm = 0`) yields
`+inf` — the infinity is propagated as a value, not an error. -/
theorem claim_C4 :
    (∀ angles : List ℝ,
        angular_std angles = npSqrt (((-2 : ℝ) : EReal) * npLog (resultantNorm angles)))
  ∧ (∀ (n : ℕ) (θ : ℝ), 0 < n → angular_std (List.replicate n θ) = (0 : EReal))
  ∧ (∀ angles : List ℝ, resultantNorm angles = 0 → angular_std angles = (⊤ : EReal)) := by
  refine ⟨fun _ => rfl, ?_, ?_⟩
  · intro n θ hn
    have h1 : resultantNorm (List.replicate n θ) = 1 := by
      unfold resultantNorm
      rw [List.map_replicate, List.map_replicate, mean_replicate hn, mean_replicate hn,
        Real.cos_sq_add_sin_sq, Real.sqrt_one]
    unfold angular_std npLog npSqrt
    rw [h1, if_neg one_ne_zero, Real.log_one]
    rw [show ((-2 : ℝ) : EReal) * ((0 : ℝ) : EReal) = ((0 : ℝ) : EReal) by
      rw [← EReal.coe_mul]; norm_num]
    rw [if_neg (EReal.coe_ne_top 0), if_neg (EReal.coe_ne_bot 0)]
    simp
  · intro l h0
    unfold angular_std npLog npSqrt
    rw [h0, if_pos rfl, EReal.coe_mul_bot_of_neg (by norm_num), if_pos rfl]

/-- Witness for C4: two identical angles give standard deviation `0`, and the
fully dispersed distribution `[0, π]` has resultant norm `0` and standard
deviation `+inf`. -/
theorem claim_C4_witness :
    angular_std (List.replicate 2 (0 : ℝ)) = (0 : EReal)
  ∧ angular_std [(0 : ℝ), π] = (⊤ : EReal) := by
  constructor
  · exact claim_C4.2.1 2 0 (by norm_num)
  · refine claim_C4.2.2 [0, π] ?_
    unfold resultantNorm mean
    simp [Real.cos_pi, Real.sin_pi]

/-- C5: `angular_mean` is the two-argument arctangent of the mean sine and
mean cosine, lies in `(-π, π]`, and is invariant under adding any integer
multiple of `2π` to any input angle. -/
theorem claim_C5 : ∀ (l : List ℝ), l ≠ [] →
    (angular_mean l = arctan2 (mean (l.map Real.sin)) (mean (l.map Real.cos)))
  ∧ (-π < angular_mean l ∧ angular_mean l ≤ π)
  ∧ (∀ (i : ℕ) (h : i < l.length) (k : ℤ),
      angular_mean (l.set i (l.get ⟨i, h⟩ + 2 * π * k)) = angular_mean l) := by
  intro l _
  refine ⟨rfl, ⟨Complex.neg_pi_lt_arg _, Complex.arg_le_pi _⟩, ?_⟩
  intro i h k
  have hper : ∀ x : ℝ, x + 2 * π * k = x + (k : ℝ) * (2 * π) := fun x => by ring
  have hs : (l.set i (l.get ⟨i, h⟩ + 2 * π * k)).map Real.sin = l.map Real.sin :=
    map_set_self_of_eq _ _ _ h _
      (by rw [hper, Real.sin_add_int_mul_two_pi])
  have hc : (l.set i (l.get ⟨i, h⟩ + 2 * π * k)).map Real.cos = l.map Real.cos :=
    map_set_self_of_eq _ _ _ h _
      (by rw [hper, Real.cos_add_int_mul_two_pi])
  unfold angular_mean
  rw [hs, hc]

/-- Witness for C5 at the one-element list `[0]`: the range bounds and the
invariance under adding `2π` at position 0. -/
theorem claim_C5_witness :
    (-π < angular_mean [(0 : ℝ)] ∧ angular_mean [(0 : ℝ)] ≤ π)
  ∧ angular_mean ([(0 : ℝ)].set 0 (([(0 : ℝ)].get ⟨0, by simp⟩) + 2 * π * (1 : ℤ)))
      = angular_mean [(0 : ℝ)] := by
  have h := claim_C5 [(0 : ℝ)] (by simp)
  exact ⟨h.2.1, h.2.2 0 (by simp) 1⟩

/-- Value of `interval_mean([359, 1], 0, 360)`: the remapped angles are
`±(179/180)π`, whose sines cancel and whose cosines are equal and negative,
so the angular mean is exactly `π` and the mapped-back value is `360`. -/
theorem interval_mean_seam : interval_mean [(359 : ℝ), 1] 0 360 = 360 := by
  have hπ := Real.pi_ne_zero
  rw [interval_mean_def]
  simp only [List.map_cons, List.map_nil]
  rw [show ((359 : ℝ) - (0 + (360 - 0) / 2)) / ((360 - 0) / 2) * π = 179 / 180 * π by ring]
  rw [show ((1 : ℝ) - (0 + (360 - 0) / 2)) / ((360 - 0) / 2) * π = -(179 / 180 * π) by ring]
  rw [angular_mean_pair, Real.sin_neg, Real.cos_neg]
  rw [show (Real.sin (179 / 180 * π) + -Real.sin (179 / 180 * π)) / 2 = 0 by ring]
  rw [show (Real.cos (179 / 180 * π) + Real.cos (179 / 180 * π)) / 2
      = Real.cos (179 / 180 * π) by ring]
  have hneg : Real.cos (179 / 180 * π) < 0 :=
    Real.cos_neg_of_pi_div_two_lt_of_lt (by nlinarith [Real.pi_pos])
      (by nlinarith [Real.pi_pos])
  rw [arctan2_zero_neg hneg]
  field_simp
  ring

/-- C3 (amended): `interval_mean([359, 1], 0, 360)` is exactly `360` — the
seam of the interval represented as `interval_min + period` rather than `0`
(the same circular position, one full period away from `0`), and in
particular not `180`. -/
theorem claim_C3 :
    interval_mean [(359 : ℝ), 1] 0 360 = 360
  ∧ interval_mean [(359 : ℝ), 1] 0 360 - 0 = 360 * (1 : ℤ)
  ∧ interval_mean [(359 : ℝ), 1] 0 360 ≠ 180 := by
  refine ⟨interval_mean_seam, ?_, ?_⟩ <;> rw [interval_mean_seam] <;> norm_num

/-- Counterexample for C3 as stated: the returned value `360` is not
approximately `0` (it misses `0` by a full period, farther than any
approximation tolerance — even `179` — allows). -/
theorem claim_C3_cex :
    ¬ |interval_mean [(359 : ℝ), 1] 0 360 - 0| ≤ 179 := by
  rw [interval_mean_seam]
  norm_num

/-- C6: `mean_of_two_angles` averages the cosines and the sines of its two
arguments pairwise and returns the two-argument arctangent; the array form is
this scalar function applied elementwise; and
`mean_of_two_angles_deg 359 1 = 0` (not `180`). -/
theorem claim_C6 :
    (∀ a b : ℝ, mean_of_two_angles a b
        = arctan2 ((Real.sin a + Real.sin b) / 2) ((Real.cos a + Real.cos b) / 2))
  ∧ (∀ (xs ys : List ℝ) (i : ℕ) (hx : i < xs.length) (hy : i < ys.length),
      (mean_of_two_angles_arr xs ys).getD i 0
        = mean_of_two_angles (xs.get ⟨i, hx⟩) (ys.get ⟨i, hy⟩))
  ∧ mean_of_two_angles_deg 359 1 = 0 := by
  refine ⟨fun _ _ => rfl, ?_, ?_⟩
  · intro xs ys i hx hy
    have hlen : i < (List.zipWith mean_of_two_angles xs ys).length := by
      rw [List.length_zipWith]; omega
    unfold mean_of_two_angles_arr
    rw [List.getD_eq_getElem _ _ hlen]
    simp [List.getElem_zipWith]
  · unfold mean_of_two_angles_deg mean_of_two_angles deg2rad rad2deg
    rw [show (359 : ℝ) * (π / 180) = 2 * π - 1 * (π / 180) by ring]
    rw [show Real.sin (2 * π - 1 * (π / 180)) = -Real.sin (1 * (π / 180)) by
      rw [Real.sin_sub]; simp [Real.sin_two_pi, Real.cos_two_pi]]
    rw [show Real.cos (2 * π - 1 * (π / 180)) = Real.cos (1 * (π / 180)) by
      rw [Real.cos_sub]; simp [Real.sin_two_pi, Real.cos_two_pi]]
    rw [show (-Real.sin (1 * (π / 180)) + Real.sin (1 * (π / 180))) / 2 = 0 by ring]
    rw [show (Real.cos (1 * (π / 180)) + Real.cos (1 * (π / 180))) / 2
        = Real.cos (1 * (π / 180)) by ring]
    have hpos : (0 : ℝ) ≤ Real.cos (1 * (π / 180)) :=
      Real.cos_nonneg_of_neg_pi_div_two_le_of_le (by nlinarith [Real.pi_pos])
        (by nlinarith [Real.pi_pos])
    rw [arctan2_zero_nonneg hpos, zero_mul]

/-- Witness for C6: the elementwise characterisation at the concrete arrays
`[0]` and `[0]`, position `0`. -/
theorem claim_C6_witness :
    (mean_of_two_angles_arr [(0 : ℝ)] [(0 : ℝ)]).getD 0 0
      = mean_of_two_angles (([(0 : ℝ)].get ⟨0, by simp⟩)) (([(0 : ℝ)].get ⟨0, by simp⟩)) :=
  claim_C6.2.1 [(0 : ℝ)] [(0 : ℝ)] 0 (by simp) (by simp)

/-- On the radian interval `[-π, π]` the affine remapping is the identity and
`interval_mean` collapses to `angular_mean` exactly. -/
theorem interval_mean_rad (d : List ℝ) : interval_mean d (-π) π = angular_mean d := by
  have hπ := Real.pi_ne_zero
  rw [interval_mean_def]
  have hmap : (d.map fun x => (x - (-π + (π - -π) / 2)) / ((π - -π) / 2) * π) = d := by
    have hid : ∀ x : ℝ, (x - (-π + (π - -π) / 2)) / ((π - -π) / 2) * π = x := by
      intro x
      rw [show (-π + (π - -π) / 2 : ℝ) = 0 by ring, show ((π - -π) / 2 : ℝ) = π by ring,
        sub_zero, div_mul_cancel₀ _ hπ]
    simp only [hid, List.map_id']
  rw [hmap, show ((π - -π) / 2 : ℝ) = π by ring,
    mul_div_cancel_right₀ _ hπ]
  simp

/-- On the radian interval `[-π, π]`, `interval_std` collapses to
`angular_std` exactly. -/
theorem interval_std_rad (d : List ℝ) : interval_std d (-π) π = angular_std d := by
  have hπ := Real.pi_ne_zero
  rw [interval_std_def]
  have hmap : (d.map fun x => (x - (-π + (π - -π) / 2)) / ((π - -π) / 2) * π) = d := by
    have hid : ∀ x : ℝ, (x - (-π + (π - -π) / 2)) / ((π - -π) / 2) * π = x := by
      intro x
      rw [show (-π + (π - -π) / 2 : ℝ) = 0 by ring, show ((π - -π) / 2 : ℝ) = π by ring,
        sub_zero, div_mul_cancel₀ _ hπ]
    simp only [hid, List.map_id']
  rw [hmap, show ((π - -π) / 2 : ℝ) = π by ring, ← EReal.mul_div, ← EReal.coe_div,
    div_self hπ]
  simp

/-- On the interval `[0, 360]` with degree inputs, `interval_std` equals
`angular_std_deg` exactly: the remapped angles are the radian angles shifted
by `-π`, the shift preserves the resultant norm, and the scale factor
`180/π` is the radian-to-degree constant. -/
theorem interval_std_deg360 (d : List ℝ) : interval_std d 0 360 = angular_std_deg d := by
  rw [interval_std_def, map_deg360]
  have hstd : angular_std ((d.map deg2rad).map fun t => t - π)
      = angular_std (d.map deg2rad) := by
    unfold angular_std
    rw [resultantNorm_sub_pi]
  rw [hstd]
  unfold angular_std_deg rad2degE
  rw [show ((360 - 0 : ℝ) / 2) = (180 : ℝ) by norm_num, ← EReal.mul_div, ← EReal.coe_div]

/-- On the interval `[0, 360]` with degree inputs and a nonzero resultant
vector, `interval_mean` and `angular_mean_deg` agree up to an integer number
of full turns (360 degrees). -/
theorem interval_mean_deg360_mod (d : List ℝ) (hz : resultantVec (d.map deg2rad) ≠ 0) :
    ∃ m : ℤ, interval_mean d 0 360 - angular_mean_deg d = 360 * m := by
  have hπ := Real.pi_ne_zero
  rw [interval_mean_def, map_deg360]
  obtain ⟨k, hk⟩ : ∃ k : ℤ,
      Complex.arg (-(resultantVec (d.map deg2rad)))
        - (Complex.arg (resultantVec (d.map deg2rad)) + π) = 2 * π * k := by
    have h := Complex.arg_neg_coe_angle hz
    rw [← Real.Angle.coe_add] at h
    exact Real.Angle.angle_eq_iff_two_pi_dvd_sub.mp h
  refine ⟨k + 1, ?_⟩
  unfold angular_mean_deg rad2deg
  rw [angular_mean_eq_arg, angular_mean_eq_arg, resultantVec_sub_pi]
  have hA : Complex.arg (-(resultantVec (d.map deg2rad)))
      = Complex.arg (resultantVec (d.map deg2rad)) + π + 2 * π * k := by linarith
  rw [hA]
  push_cast
  field_simp
  ring

/-- Value of `interval_mean([270], 0, 360)`: the remapped angle is `π/2`,
whose angular mean is `π/2`, mapped back to `270`. -/
theorem interval_mean_val_270 : interval_mean [(270 : ℝ)] 0 360 = 270 := by
  have hπ := Real.pi_ne_zero
  rw [interval_mean_def]
  simp only [List.map_cons, List.map_nil]
  rw [show ((270 : ℝ) - (0 + (360 - 0) / 2)) / ((360 - 0) / 2) * π = π / 2 by ring]
  rw [angular_mean_single, Real.sin_pi_div_two, Real.cos_pi_div_two, arctan2_one_zero]
  field_simp
  ring

/-- Value of `angular_mean_deg([270])`: the radian angle is `3π/2`, whose
argument representative in `(-π, π]` is `-π/2`, scaled back to `-90`. -/
theorem angular_mean_deg_val_270 : angular_mean_deg [(270 : ℝ)] = -90 := by
  have hπ := Real.pi_ne_zero
  unfold angular_mean_deg rad2deg
  simp only [List.map_cons, List.map_nil]
  rw [show deg2rad 270 = π / 2 + π by unfold deg2rad; ring]
  rw [angular_mean_single, Real.sin_add, Real.cos_add, Real.sin_pi, Real.cos_pi,
    Real.sin_pi_div_two, Real.cos_pi_div_two]
  norm_num
  rw [arctan2_negone_zero]
  field_simp
  ring

/-- C2 (amended): on `[-π, π]` the interval functions reduce exactly to
`angular_mean` / `angular_std`; on `[0, 360]` with degree inputs,
`interval_std` reduces exactly to `angular_std_deg`, while `interval_mean`
agrees with `angular_mean_deg` only up to an integer multiple of 360 (the two
functions pick different representatives of the same direction), provided the
resultant vector is nonzero. -/
theorem claim_C2 :
    (∀ d : List ℝ, interval_mean d (-π) π = angular_mean d)
  ∧ (∀ d : List ℝ, interval_std d (-π) π = angular_std d)
  ∧ (∀ d : List ℝ, interval_std d 0 360 = angular_std_deg d)
  ∧ (∀ d : List ℝ, resultantVec (d.map deg2rad) ≠ 0 →
      ∃ m : ℤ, interval_mean d 0 360 - angular_mean_deg d = 360 * m) :=
  ⟨interval_mean_rad, interval_std_rad, interval_std_deg360, interval_mean_deg360_mod⟩

/-- Counterexample for C2 as stated: on degree inputs the claimed exact
reduction of `interval_mean` to the degree-scaled angular mean fails — at
`[270]` the interval mean is `270` while `angular_mean_deg` returns `-90`
(the same direction, but a different number). -/
theorem claim_C2_cex :
    interval_mean [(270 : ℝ)] 0 360 = 270
  ∧ angular_mean_deg [(270 : ℝ)] = -90
  ∧ (270 : ℝ) ≠ -90 :=
  ⟨interval_mean_val_270, angular_mean_deg_val_270, by norm_num⟩

/-- Witness for C2 at the one-element degree list `[90]`, whose resultant
vector `i` is nonzero. -/
theorem claim_C2_witness :
    ∃ m : ℤ, interval_mean [(90 : ℝ)] 0 360 - angular_mean_deg [(90 : ℝ)] = 360 * m := by
  refine claim_C2.2.2.2 [(90 : ℝ)] ?_
  intro h
  have him := congrArg Complex.im h
  simp only [resultantVec, Complex.zero_im] at him
  rw [show ([(90 : ℝ)].map deg2rad) = [π / 2] from by
    simp only [List.map_cons, List.map_nil]; rw [show deg2rad 90 = π / 2 by
      unfold deg2rad; ring]] at him
  rw [List.map_cons, List.map_nil, mean_single, Real.sin_pi_div_two] at him
  exact one_ne_zero him

/-- Closed form of `compute_directional_stats` along axis 0: the two arrays
`values` and `nvalid` have one entry per column, and the masking step keeps a
column's statistic exactly when its valid count reaches `nvalid_min`. -/
theorem cds_axis0 (f : MaskedField) (avg : String) (nmin : ℕ) :
    compute_directional_stats f avg nmin 0
      = some ((colsOf f).map (fun c =>
            if countValid c < nmin then none
            else (if avg = "mean" then maMean c else maMedian c)),
          (colsOf f).map countValid) := by
  unfold compute_directional_stats maReduce
  by_cases havg : avg = "mean" <;>
    simp [havg, List.zipWith_map, List.zipWith_same, List.length_map]

/-- C8: along axis 0, the median of the unmasked field `[[1,2,3],[3,2,1]]`
is `[2,2,2]` with `nvalid = [2,2,2]`; in general, an output position whose
column has at least `nvalid_min` (and at least one) valid entries receives
exactly the plain mean/median of that column's valid entries. -/
theorem claim_C8 :
    (compute_directional_stats [[some 1, some 2, some 3], [some 3, some 2, some 1]]
        "median" 1 0
      = some ([some 2, some 2, some 2], [2, 2, 2]))
  ∧ ∀ (field : MaskedField) (avg_type : String) (nvalid_min j : ℕ),
      j < numCols field →
      nvalid_min ≤ countValid (colOf field j) →
      0 < countValid (colOf field j) →
      ∃ vals nvalid,
        compute_directional_stats field avg_type nvalid_min 0 = some (vals, nvalid)
        ∧ nvalid.getD j 0 = countValid (colOf field j)
        ∧ vals.getD j none = (if avg_type = "mean"
            then some ((((colOf field j).filterMap id).sum)
                / ((((colOf field j).filterMap id).length : ℚ)))
            else some (medianOf ((colOf field j).filterMap id))) := by
  constructor
  · rw [cds_axis0]
    have h1 : colsOf [[some 1, some 2, some 3], [some 3, some 2, some 1]]
        = [[some 1, some 3], [some 2, some 2], [some 3, some 1]] := by decide
    rw [h1]
    norm_num [countValid, maMedian, medianOf, List.insertionSort, List.orderedInsert,
      List.getD, List.filterMap_cons, show ¬(("median" : String) = "mean") from by decide]
    simp
  · intro f avg nmin j hj hmin hposv
    refine ⟨_, _, cds_axis0 f avg nmin, ?_, ?_⟩
    · unfold colsOf
      rw [List.map_map, List.getD_eq_getElem _ _ (by simp [hj])]
      simp [hj]
    · unfold colsOf
      rw [List.map_map, List.getD_eq_getElem _ _ (by simp [hj])]
      simp only [List.getElem_map, List.getElem_range, Function.comp_apply]
      rw [if_neg (not_lt.mpr hmin)]
      have hne : ((colOf f j).filterMap id).length ≠ 0 := by
        unfold countValid at hposv
        omega
      by_cases havg : avg = "mean"
      · rw [if_pos havg, if_pos havg]
        unfold maMean
        rw [if_neg hne]
      · rw [if_neg havg, if_neg havg]
        unfold maMedian
        rw [if_neg hne]

/-- Witness for C8: the general column statement at the concrete field
`[[1,2,3],[3,2,1]]`, median, `nvalid_min = 1`, column 0. -/
theorem claim_C8_witness :
    ∃ vals nvalid,
      compute_directional_stats [[some 1, some 2, some 3], [some 3, some 2, some 1]]
          "median" 1 0
        = some (vals, nvalid)
      ∧ nvalid.getD 0 0
          = countValid (colOf [[some 1, some 2, some 3], [some 3, some 2, some 1]] 0)
      ∧ vals.getD 0 none = (if "median" = "mean"
          then some ((((colOf [[some 1, some 2, some 3], [some 3, some 2, some 1]] 0).filterMap
                id).sum)
              / ((((colOf [[some 1, some 2, some 3], [some 3, some 2, some 1]] 0).filterMap
                id).length : ℚ)))
          else some (medianOf
            ((colOf [[some 1, some 2, some 3], [some 3, some 2, some 1]] 0).filterMap id))) :=
  claim_C8.2 _ "median" 1 0 (by decide) (by decide) (by decide)

end CircularStats
